import Mathlib

/-!
Shallow embedding of the query-builder / filter-compiler engine of the
repository (files src/api/shared/system/query_builder/shared/engine.py and
src/api/shared/system/query_builder/postgres/engine.py).

Modelling conventions:
* The engine never inspects the client-supplied values (it only stores them,
  possibly after applying a field's transform), so the value domain
  (scalar | list-of-scalar | null in the source) is abstracted as a type
  parameter V.
* Python dicts are modelled as insertion-ordered association lists
  (List (String × V)); assignment d[k] = v overwrites in place when the key
  exists and appends otherwise (dictInsert).
* uuid4 suffix generation is determinised: a supply function σ : Nat → String
  gives the suffix for the n-th generated parameter, and a counter is
  threaded through the compilation.  One uuid is drawn per registered
  parameter, exactly as the source draws one per Operator.param call.
* Python exceptions become the Except constructor in the first component of
  the result; because the raised exception does not roll back in-place dict
  mutation, the params dict value at raise time is returned alongside the
  error (second component), mirroring what the aliased dict holds after the
  exception propagates.
-/

namespace QB

/-- Python's str.lower() as observed on the ASCII identifiers the engine
handles (field names, operator symbols, conditions, directions), defined
over the character list so that it reduces in the kernel. -/
def strLower (s : String) : String := ⟨s.data.map Char.toLower⟩

instance {ε α : Type} [DecidableEq ε] [DecidableEq α] :
    DecidableEq (Except ε α) := fun a b =>
  match a, b with
  | .ok x, .ok y =>
      if h : x = y then .isTrue (by rw [h])
      else .isFalse (by intro hc; cases hc; exact h rfl)
  | .error x, .error y =>
      if h : x = y then .isTrue (by rw [h])
      else .isFalse (by intro hc; cases hc; exact h rfl)
  | .ok _, .error _ => .isFalse (by intro hc; cases hc)
  | .error _, .ok _ => .isFalse (by intro hc; cases hc)

/-- A field that can be used in query building (class Field).  The postgres
engine coerces a missing cast to the empty string; both the None and the ""
representation are falsy in the guard of Operator.param, so cast is modelled
as an Option String whose truthiness is (cast.getD "" is nonempty). -/
structure Field (V : Type) where
  name : String
  definition : String
  transform : Option (V → V)
  cast : Option String

/-- The parameter dictionary dict[str, Any]: insertion-ordered. -/
abbrev Params (V : Type) := List (String × V)

/-- Python dict assignment d[k] = v: overwrite in place if the key exists,
append otherwise. -/
def dictInsert {α : Type} (p : List (String × α)) (k : String) (v : α) :
    List (String × α) :=
  if p.any (fun kv => kv.1 = k) then
    p.map (fun kv => if kv.1 = k then (k, v) else kv)
  else p ++ [(k, v)]

/-- Python dict lookup d.get(k) / d[k]. -/
def dictLookup {α : Type} (p : List (String × α)) (k : String) : Option α :=
  (p.find? (fun kv => kv.1 = k)).map (fun kv => kv.2)

/-- The dict comprehension of IQueryBuilder.__init__:
a dict rebuilt with lowercased keys (later duplicates overwrite). -/
def lowerKeys {α : Type} (l : List (String × α)) : List (String × α) :=
  l.foldl (fun acc kv => dictInsert acc (strLower kv.1) kv.2) []

/-- The concrete operator implementations present in the source: the only
IOperator subclass in the codebase is the postgres Equal. -/
inductive OperatorKind where
  | equal
deriving DecidableEq

/-- The error kinds raised by the engine (the source raises ValueError with
these distinguishing messages; the spec names them as error kinds). -/
inductive QBError where
  | unsupportedOperator (op : String)
  | unknownField (f : String)
  | unsupportedCondition (c : String)
  | unsupportedDirection (d : String)
  | malformedFilter
deriving DecidableEq

/-- The exact message strings of the ValueErrors raised by the source. -/
def QBError.message : QBError → String
  | .unsupportedOperator op => "Unsupported operator: " ++ op ++ "."
  | .unknownField f => "Unknown field: " ++ f ++ "."
  | .unsupportedCondition c => "Unsupported condition: " ++ c ++ "."
  | .unsupportedDirection d => "Unsupported order by direction: " ++ d ++ "."
  | .malformedFilter =>
      "Invalid where clause structure: expected either a simple " ++
      "rule with 'field' or a condition with 'condition'."

/-- enum Conditions (StrEnum): the supported boolean conditions. -/
def Conditions : List String := ["and", "or"]

/-- enum Directions (StrEnum): the supported order-by directions. -/
def Directions : List String := ["asc", "desc"]

/-- Operator.param of the postgres engine: registers the (possibly
transformed) value under the generated name field.name + "_" + suffix and
returns the placeholder reference, wrapped in a cast expression when
field.cast is truthy. -/
def Operator.param {V : Type} (σ : Nat → String) (field : Field V)
    (params : Params V) (value : V) (ctr : Nat) : String × Params V × Nat :=
  let param_name := field.name ++ "_" ++ σ ctr
  let bound := match field.transform with
    | some t => t value
    | none => value
  let params := dictInsert params param_name bound
  match field.cast with
  | some c =>
      if c = "" then (":" ++ param_name, params, ctr + 1)
      else ("cast(:" ++ param_name ++ " as " ++ c ++ ")", params, ctr + 1)
  | none => (":" ++ param_name, params, ctr + 1)

/-- Equal.compile of the postgres engine:
field.definition + " = " + self.param(field, params, value). -/
def Equal.compile {V : Type} (σ : Nat → String) (field : Field V) (value : V)
    (params : Params V) (ctr : Nat) : String × Params V × Nat :=
  let r := Operator.param σ field params value ctr
  (field.definition ++ " = " ++ r.1, r.2.1, r.2.2)

/-- A pydantic-validated where rule (SimpleWhereRule | ComplexWhereRule).
For a complex rule, condition = none models a child dict whose "condition"
key was absent; pydantic's declared default Conditions.AND is applied when
the engine reads the condition (observably identical to applying it at
parse time, since the value is read exactly once per compile). -/
inductive Rule (V : Type) where
  | simple (field : String) (operator : String) (value : V)
  | complex (condition : Option String) (rules : List (Rule V))

/-- The top-level argument of IQueryBuilder.build_where: a Python dict (or
None, modelled outside by Option).  Dispatch in the source is by key
presence, "field" probed first:
* emptyDict — the falsy dict {} (caught by the `if not where_` guard);
* simpleDict — a dict with a "field" key that validates as SimpleWhereRule;
* complexDict — a non-empty dict without "field" but with a "condition" key
  whose payload validates as ComplexWhereRule (children already validated,
  with pydantic defaults applied as in Rule);
* otherDict — any non-empty dict with neither a "field" nor a "condition"
  key.
Dicts that fail pydantic validation itself (e.g. "field" present but
"operator" missing) raise pydantic's ValidationError and are outside this
model; no claim touches them. -/
inductive WhereInput (V : Type) where
  | emptyDict
  | simpleDict (field : String) (operator : String) (value : V)
  | complexDict (condition : String) (rules : List (Rule V))
  | otherDict

/-- IQueryBuilder: the registries, keyed by lowercased names. -/
structure IQueryBuilder (V : Type) where
  fields : List (String × Field V)
  operators : List (String × OperatorKind)

/-- IQueryBuilder.__init__: lowercases the registry keys. -/
def IQueryBuilder.make {V : Type} (fields : List (String × Field V))
    (operators : List (String × OperatorKind)) : IQueryBuilder V :=
  ⟨lowerKeys fields, lowerKeys operators⟩

/-- The SimpleWhereRule branch of build_where: operator looked up first
(case-insensitively), then the field, then the operator compiles. -/
def compileSimple {V : Type} (qb : IQueryBuilder V) (σ : Nat → String)
    (fld op : String) (v : V) (p : Params V) (c : Nat) :
    Except QBError String × Params V × Nat :=
  match dictLookup qb.operators (strLower op) with
  | none => (.error (.unsupportedOperator op), p, c)
  | some opk =>
    match dictLookup qb.fields (strLower fld) with
    | none => (.error (.unknownField fld), p, c)
    | some field =>
      match opk with
      | .equal =>
        let r := Equal.compile σ field v p c
        (.ok r.1, r.2.1, r.2.2)

mutual

/-- Compilation of one pydantic-validated rule, as redispatched by the
recursive build_where call on sub_rule.model_dump(): a simple rule takes the
"field" branch, a complex rule the "condition" branch (condition checked
against Conditions before the loop over children). -/
def compileRule {V : Type} (qb : IQueryBuilder V) (σ : Nat → String) :
    Rule V → Params V → Nat → Except QBError String × Params V × Nat
  | .simple fld op v, p, c => compileSimple qb σ fld op v p c
  | .complex cond rs, p, c =>
    let condS := cond.getD "and"
    if strLower condS ∈ Conditions then
      match compileRulesLoop qb σ [] rs p c with
      | (.error e, p', c') => (.error e, p', c')
      | (.ok frags, p', c') =>
        (.ok (String.intercalate (" " ++ strLower condS ++ " ") frags), p', c')
    else (.error (.unsupportedCondition condS), p, c)

/-- The for-loop of the ComplexWhereRule branch: compiles the children in
order, appending "(" + fragment + ")" to the accumulator list; a raise in a
child propagates, keeping the params accumulated so far. -/
def compileRulesLoop {V : Type} (qb : IQueryBuilder V) (σ : Nat → String)
    (acc : List String) :
    List (Rule V) → Params V → Nat →
      Except QBError (List String) × Params V × Nat
  | [], p, c => (.ok acc, p, c)
  | r :: rs, p, c =>
    match compileRule qb σ r p c with
    | (.error e, p', c') => (.error e, p', c')
    | (.ok s, p', c') => compileRulesLoop qb σ (acc ++ ["(" ++ s ++ ")"]) rs p' c'

end

/-- IQueryBuilder.build_where.  The `params = params or {}` line is the
identity on the dict value (None is modelled by passing the empty list); its
aliasing consequence for the caller is modelled by callerParamsAfter. -/
def IQueryBuilder.build_where {V : Type} (qb : IQueryBuilder V)
    (σ : Nat → String) (w : Option (WhereInput V)) (params : Params V)
    (ctr : Nat) : Except QBError String × Params V × Nat :=
  match w with
  | none => (.ok "1=1", params, ctr)
  | some .emptyDict => (.ok "1=1", params, ctr)
  | some (.simpleDict fld op v) => compileSimple qb σ fld op v params ctr
  | some (.complexDict cond rules) =>
      compileRule qb σ (.complex (some cond) rules) params ctr
  | some .otherDict => (.error .malformedFilter, params, ctr)

/-- What the caller's own params dict holds after a build_where call
(CPython semantics of `params = params or {}` plus in-place mutation):
a falsy (empty or None) argument is rebound to a fresh dict, so the caller's
dict is never touched; a non-empty dict stays aliased for the whole
compilation (entries are only ever added, so it can never become falsy and
be detached by a nested `or {}`), so the caller observes the threaded dict —
including the entries accumulated before an exception was raised. -/
def callerParamsAfter {V : Type} (paramsArg : Params V)
    (res : Except QBError String × Params V × Nat) : Params V :=
  if paramsArg.isEmpty then paramsArg else res.2.1

/-- An order-by rule dict {field, direction}; direction = none models an
absent "direction" key, for which pydantic's declared default
Directions.ASC applies. -/
structure OrderInput where
  field : String
  direction : Option String

/-- The for-loop of IQueryBuilder.build_order_by: per rule, the direction is
validated first, then the field; fragments accumulate in order. -/
def buildOrderByLoop {V : Type} (qb : IQueryBuilder V) (acc : List String) :
    List OrderInput → Except QBError (List String)
  | [] => .ok acc
  | o :: rest =>
    let dir := o.direction.getD "asc"
    if strLower dir ∈ Directions then
      match dictLookup qb.fields (strLower o.field) with
      | none => .error (.unknownField o.field)
      | some f =>
          buildOrderByLoop qb (acc ++ [f.definition ++ " " ++ strLower dir]) rest
    else .error (.unsupportedDirection dir)

/-- IQueryBuilder.build_order_by: ", ".join of the accumulated fragments. -/
def IQueryBuilder.build_order_by {V : Type} (qb : IQueryBuilder V)
    (l : List OrderInput) : Except QBError String :=
  (buildOrderByLoop qb [] l).map (String.intercalate ", ")

/-- The postgres QueryBuilder (query assembler): the fragment holder. -/
structure QueryBuilder (V : Type) where
  with_ : Option String
  select_ : String
  from_ : String
  where_ : Option String
  group_by_ : Option String
  order_by_ : Option String
  fields_map : List (String × Field V)
  params : Params V

/-- QueryBuilder.count: a new builder with select count(*), no order by, and
the other fragments (and fields_map/params) taken from the receiver. -/
def QueryBuilder.count {V : Type} (qb : QueryBuilder V) : QueryBuilder V :=
  { with_ := qb.with_
    select_ := "select count(*)"
    from_ := qb.from_
    where_ := qb.where_
    group_by_ := qb.group_by_
    order_by_ := none
    fields_map := qb.fields_map
    params := qb.params }

mutual

/-- Two validated rules have the same shape when they agree on everything
except the values at their simple leaves. -/
def sameShapeR {V : Type} : Rule V → Rule V → Bool
  | .simple f o _, .simple f' o' _ => f == f' && o == o'
  | .complex c rs, .complex c' rs' => c == c' && sameShapeL rs rs'
  | _, _ => false

/-- Pointwise sameShapeR on the children lists of complex rules. -/
def sameShapeL {V : Type} : List (Rule V) → List (Rule V) → Bool
  | [], [] => true
  | r :: rs, r' :: rs' => sameShapeR r r' && sameShapeL rs rs'
  | _, _ => false

end

/-- Same shape lifted to the full build_where argument: equal except for
the client-supplied leaf values. -/
def sameShapeW {V : Type} :
    Option (WhereInput V) → Option (WhereInput V) → Bool
  | none, none => true
  | some .emptyDict, some .emptyDict => true
  | some (.simpleDict f o _), some (.simpleDict f' o' _) => f == f' && o == o'
  | some (.complexDict c rs), some (.complexDict c' rs') =>
      c == c' && sameShapeL rs rs'
  | some .otherDict, some .otherDict => true
  | _, _ => false

/-- Modelled from the spec's words for the ComplexWhereRule branch (used to
compare with the source's accumulator loop): compile each child in order
with the threaded params and counter, wrap each compiled fragment in
parentheses, and collect the fragments by direct recursion. -/
def compileChildrenSpec {V : Type} (qb : IQueryBuilder V) (σ : Nat → String) :
    List (Rule V) → Params V → Nat →
      Except QBError (List String) × Params V × Nat
  | [], p, c => (.ok [], p, c)
  | r :: rs, p, c =>
    match compileRule qb σ r p c with
    | (.error e, p', c') => (.error e, p', c')
    | (.ok s, p', c') =>
      match compileChildrenSpec qb σ rs p' c' with
      | (.error e, p'', c'') => (.error e, p'', c'')
      | (.ok frags, p'', c'') => (.ok (("(" ++ s ++ ")") :: frags), p'', c'')

/-- Modelled from the spec's words for one order-by rule (used to compare
with the source's loop): the registered field's definition, a space, and
the lowercased (defaulted) direction. -/
def orderFragment {V : Type} (qb : IQueryBuilder V) (o : OrderInput) : String :=
  match dictLookup qb.fields (strLower o.field) with
  | some f => f.definition ++ " " ++ strLower (o.direction.getD "asc")
  | none => ""

/-- An order-by rule the engine accepts: supported (defaulted) direction and
a registered field. -/
def validOrd {V : Type} (qb : IQueryBuilder V) (o : OrderInput) : Prop :=
  strLower (o.direction.getD "asc") ∈ Directions ∧
    (dictLookup qb.fields (strLower o.field)).isSome = true

instance {V : Type} (qb : IQueryBuilder V) (o : OrderInput) :
    Decidable (validOrd qb o) := by
  unfold validOrd
  infer_instance

/-- A deterministic placeholder-suffix supply for concrete runs. -/
def sig0 : Nat → String := fun n => Nat.repr n

/-- A concrete field with a cast, as in the spec's uuid scenario. -/
def fid : Field String := ⟨"id", "users.id", none, some "uuid"⟩

/-- A concrete registry instance (mixed-case keys exercise the lowercasing
constructor). -/
def qb0 : IQueryBuilder String :=
  IQueryBuilder.make
    [("a", ⟨"a", "t.a", none, none⟩), ("b", ⟨"b", "t.b", none, none⟩),
     ("Id", fid)]
    [("Equal", .equal)]

/-- A concrete filter tree. -/
def wTree1 : Option (WhereInput String) :=
  some (.complexDict "or" [.simple "a" "equal" "1", .simple "b" "equal" "2"])

/-- The same tree with different leaf values. -/
def wTree2 : Option (WhereInput String) :=
  some (.complexDict "or" [.simple "a" "equal" "3", .simple "b" "equal" "4"])

lemma any_key_eq_true_iff {α : Type} (p : List (String × α)) (k : String) :
    p.any (fun kv => kv.1 = k) = true ↔ k ∈ p.map Prod.fst := by
  simp [List.any_eq_true, List.mem_map]

lemma keys_dictInsert {α : Type} (p : List (String × α)) (k : String) (v : α) :
    (dictInsert p k v).map Prod.fst =
      if k ∈ p.map Prod.fst then p.map Prod.fst else p.map Prod.fst ++ [k] := by
  unfold dictInsert
  by_cases h : k ∈ p.map Prod.fst
  · rw [if_pos ((any_key_eq_true_iff p k).mpr h), if_pos h, List.map_map]
    apply List.map_congr_left
    intro kv _
    by_cases hkv : kv.1 = k
    · simp [hkv]
    · simp [hkv]
  · have hb : ¬ (p.any (fun kv => kv.1 = k) = true) := fun hc =>
      h ((any_key_eq_true_iff p k).mp hc)
    rw [if_neg hb, if_neg h]
    simp

lemma dictInsert_not_mem {α : Type} (p : List (String × α)) (k : String)
    (v : α) (h : k ∉ p.map Prod.fst) : dictInsert p k v = p ++ [(k, v)] := by
  unfold dictInsert
  rw [if_neg (fun hc => h ((any_key_eq_true_iff p k).mp hc))]

lemma callerParamsAfter_same {V : Type} (p : Params V)
    (r : Except QBError String × Params V × Nat) (h : r.2.1 = p) :
    callerParamsAfter p r = p := by
  unfold callerParamsAfter
  split <;> simp [h]

/-- C6: for every params map, build_where(None, params) returns the pair
("1=1", params) with the params map unchanged from the input (the caller's
dict is untouched as well). -/
theorem c6_none_filter_identity {V : Type} (qb : IQueryBuilder V)
    (σ : Nat → String) (p : Params V) (c : Nat) :
    qb.build_where σ none p c = (.ok "1=1", p, c) ∧
      callerParamsAfter p (qb.build_where σ none p c) = p :=
  ⟨rfl, callerParamsAfter_same p _ rfl⟩

/-- C10: build_where({}, params) — an empty dict, which has neither a
"field" nor a "condition" key — does not raise: the falsy dict is treated
the same as None, returning ("1=1", params) with params unchanged. -/
theorem c10_empty_dict_is_no_filter {V : Type} (qb : IQueryBuilder V)
    (σ : Nat → String) (p : Params V) (c : Nat) :
    qb.build_where σ (some .emptyDict) p c = (.ok "1=1", p, c) ∧
      callerParamsAfter p (qb.build_where σ (some .emptyDict) p c) = p :=
  ⟨rfl, callerParamsAfter_same p _ rfl⟩

/-- C9: count() returns a new builder whose select_ is exactly
"select count(*)" and whose order_by_ is None, while from_, with_, where_
and group_by_ (and the fields map and params) are equal to those of the
original builder; in this value semantics the original builder is
untouched by construction. -/
theorem c9_count_transform {V : Type} (qb : QueryBuilder V) :
    qb.count.select_ = "select count(*)" ∧ qb.count.order_by_ = none ∧
      qb.count.from_ = qb.from_ ∧ qb.count.with_ = qb.with_ ∧
      qb.count.where_ = qb.where_ ∧ qb.count.group_by_ = qb.group_by_ ∧
      qb.count.fields_map = qb.fields_map ∧ qb.count.params = qb.params := by
  simp [QueryBuilder.count]

/-- C5 counterexample: the empty dict has neither a "field" nor a
"condition" key, yet build_where does not raise the structural validation
error — it returns the clause "1=1". -/
theorem c5_counterexample_empty_dict :
    (qb0.build_where sig0 (some .emptyDict) [] 0).1 = .ok "1=1" ∧
      (qb0.build_where sig0 (some .emptyDict) [] 0).1 ≠
        .error .malformedFilter := by
  decide

/-- C5 (amended): for every NON-empty input dict that has neither a "field"
key nor a "condition" key, build_where raises MalformedFilterError; the
empty dict is falsy and is instead treated as "no filter".  Dispatch is by
shape: a dict with a "field" key is compiled as a SimpleWhereRule, otherwise
a dict with a "condition" key as a ComplexWhereRule. -/
theorem c5_malformed_dispatch {V : Type} (qb : IQueryBuilder V)
    (σ : Nat → String) (p : Params V) (c : Nat) :
    qb.build_where σ (some .otherDict) p c =
        (.error .malformedFilter, p, c) ∧
      qb.build_where σ (some .emptyDict) p c = (.ok "1=1", p, c) ∧
      (∀ fld op (v : V), qb.build_where σ (some (.simpleDict fld op v)) p c =
        compileSimple qb σ fld op v p c) ∧
      (∀ cond rs, qb.build_where σ (some (.complexDict cond rs)) p c =
        compileRule qb σ (.complex (some cond) rs) p c) :=
  ⟨rfl, rfl, fun _ _ _ => rfl, fun _ _ => rfl⟩

/-- C8 counterexample: a complex rule with a valid condition and an empty
rules list compiles to the empty string, not to the claimed clause "()". -/
theorem c8_counterexample_empty_rules :
    (qb0.build_where sig0 (some (.complexDict "and" [])) [("k", "w")] 0).1 =
        .ok "" ∧
      (qb0.build_where sig0 (some (.complexDict "and" [])) [("k", "w")] 0).1 ≠
        .ok "()" := by
  decide

/-- C8 (amended): for every complex rule with a valid condition and an
empty rules list, build_where returns the empty joined string — the empty
clause "" — with params unchanged (parentheses around the empty fragment
appear only when such a rule is a child of another complex rule, which
wraps it). -/
theorem c8_empty_rules_empty_clause {V : Type} (qb : IQueryBuilder V)
    (σ : Nat → String) (cond : String) (p : Params V) (c : Nat)
    (h : strLower cond ∈ Conditions) :
    qb.build_where σ (some (.complexDict cond [])) p c = (.ok "", p, c) ∧
      callerParamsAfter p
        (qb.build_where σ (some (.complexDict cond []))  p c) = p := by
  have he : qb.build_where σ (some (.complexDict cond [])) p c =
      (.ok "", p, c) := by
    show compileRule qb σ (.complex (some cond) []) p c = (.ok "", p, c)
    rw [compileRule]
    simp only [Option.getD_some, if_pos h, compileRulesLoop]
    rfl
  exact ⟨he, callerParamsAfter_same p _ (by rw [he])⟩

/-- C8 amended witness: the empty-rules complex rule at a concrete input. -/
theorem c8_empty_rules_empty_clause_witness :
    qb0.build_where sig0 (some (.complexDict "And" [])) [("k", "w")] 0 =
        (.ok "", [("k", "w")], 0) ∧
      callerParamsAfter [("k", "w")]
        (qb0.build_where sig0 (some (.complexDict "And" [])) [("k", "w")] 0) =
        [("k", "w")] :=
  c8_empty_rules_empty_clause qb0 sig0 "And" [("k", "w")] 0 (by decide)

/-- C2: compiling the rule {field: f's registered name, operator: "equal",
value: v} (both lookups case-insensitive) returns the clause
"f.definition = <placeholder reference>" with exactly one generated
placeholder named f.name plus the generated suffix; params gains exactly
one entry mapping that name to f.transform(v) when the transform is set,
else to v; the placeholder reference is "cast(:<name> as <f.cast>)" when
f.cast is set (truthy), else the bare ":<name>". -/
theorem c2_equal_rule_compilation {V : Type} (qb : IQueryBuilder V)
    (σ : Nat → String) (fld op : String) (f : Field V) (v : V)
    (p : Params V) (c : Nat)
    (hop : dictLookup qb.operators (strLower op) = some .equal)
    (hf : dictLookup qb.fields (strLower fld) = some f) :
    qb.build_where σ (some (.simpleDict fld op v)) p c =
      (.ok (f.definition ++ " = " ++
        (if f.cast.getD "" = "" then ":" ++ (f.name ++ "_" ++ σ c)
         else "cast(:" ++ (f.name ++ "_" ++ σ c) ++ " as " ++
           f.cast.getD "" ++ ")")),
       dictInsert p (f.name ++ "_" ++ σ c)
         (match f.transform with | some t => t v | none => v),
       c + 1) ∧
    ((f.name ++ "_" ++ σ c) ∉ p.map Prod.fst →
      (qb.build_where σ (some (.simpleDict fld op v)) p c).2.1 =
        p ++ [((f.name ++ "_" ++ σ c),
          match f.transform with | some t => t v | none => v)]) := by
  have hmain : compileSimple qb σ fld op v p c =
      (.ok (f.definition ++ " = " ++
        (if f.cast.getD "" = "" then ":" ++ (f.name ++ "_" ++ σ c)
         else "cast(:" ++ (f.name ++ "_" ++ σ c) ++ " as " ++
           f.cast.getD "" ++ ")")),
       dictInsert p (f.name ++ "_" ++ σ c)
         (match f.transform with | some t => t v | none => v),
       c + 1) := by
    unfold compileSimple
    rw [hop, hf]
    unfold Equal.compile Operator.param
    cases hc : f.cast with
    | none => simp [hc]
    | some s =>
      by_cases hs : s = ""
      · simp [hc, hs]
      · simp [hc, hs]
  refine ⟨hmain, fun hnm => ?_⟩
  show (compileSimple qb σ fld op v p c).2.1 = _
  rw [hmain]
  exact dictInsert_not_mem p _ _ hnm

/-- C2 witness: the spec's uuid-cast scenario at a concrete input. -/
theorem c2_equal_rule_compilation_witness :
    qb0.build_where sig0 (some (.simpleDict "Id" "EQUAL" "x")) [] 0 =
      (.ok "users.id = cast(:id_0 as uuid)", [("id_0", "x")], 1) ∧
      (qb0.build_where sig0 (some (.simpleDict "Id" "EQUAL" "x")) [] 0).2.1 =
        [("id_0", "x")] := by
  have h := c2_equal_rule_compilation qb0 sig0 "Id" "EQUAL" fid "x" [] 0
    (by decide) (by rw [show strLower "Id" = "id" from rfl]; rfl)
  exact ⟨h.1.trans (by decide), (h.2 (by decide)).trans (by decide)⟩

lemma compileRulesLoop_eq_spec {V : Type} (qb : IQueryBuilder V)
    (σ : Nat → String) :
    ∀ (rs : List (Rule V)) (acc : List String) (p : Params V) (c : Nat),
      compileRulesLoop qb σ acc rs p c =
        ((compileChildrenSpec qb σ rs p c).1.map (fun l => acc ++ l),
         (compileChildrenSpec qb σ rs p c).2.1,
         (compileChildrenSpec qb σ rs p c).2.2) := by
  intro rs
  induction rs with
  | nil =>
    intro acc p c
    simp [compileRulesLoop, compileChildrenSpec, Except.map]
  | cons r rest ih =>
    intro acc p c
    simp only [compileRulesLoop, compileChildrenSpec]
    rcases h : compileRule qb σ r p c with ⟨res, p', c'⟩
    cases res with
    | error e => simp [Except.map]
    | ok s =>
      dsimp only
      rw [ih]
      rcases h2 : compileChildrenSpec qb σ rest p' c' with ⟨res2, p'', c''⟩
      cases res2 with
      | error e => simp [Except.map]
      | ok frags => simp [Except.map]

/-- C3: for every complex rule whose condition lowercases to "and" or "or"
(with an absent condition defaulting to "and"), build_where compiles each
child rule in order with the threaded params and counter, wraps each
compiled child fragment in parentheses, and joins them with the separator
" <condition> " (condition lowercased); for every other condition it raises
UnsupportedConditionError. -/
theorem c3_complex_rule_join {V : Type} (qb : IQueryBuilder V)
    (σ : Nat → String) (cond : String) (rs : List (Rule V)) (p : Params V)
    (c : Nat) :
    (strLower cond ∈ Conditions →
      qb.build_where σ (some (.complexDict cond rs)) p c =
        ((compileChildrenSpec qb σ rs p c).1.map
           (String.intercalate (" " ++ strLower cond ++ " ")),
         (compileChildrenSpec qb σ rs p c).2.1,
         (compileChildrenSpec qb σ rs p c).2.2)) ∧
    (strLower cond ∉ Conditions →
      qb.build_where σ (some (.complexDict cond rs)) p c =
        (.error (.unsupportedCondition cond), p, c)) ∧
    (∀ rs' : List (Rule V), compileRule qb σ (.complex none rs') p c =
      compileRule qb σ (.complex (some "and") rs') p c) := by
  refine ⟨fun h => ?_, fun h => ?_, fun rs' => rfl⟩
  · show compileRule qb σ (.complex (some cond) rs) p c = _
    rw [compileRule]
    simp only [Option.getD_some]
    rw [if_pos h, compileRulesLoop_eq_spec]
    rcases h2 : compileChildrenSpec qb σ rs p c with ⟨res2, p'', c''⟩
    cases res2 with
    | error e => simp [Except.map]
    | ok frags => simp [Except.map]
  · show compileRule qb σ (.complex (some cond) rs) p c = _
    rw [compileRule]
    simp only [Option.getD_some]
    rw [if_neg h]

/-- C3 witness: the spec's or-scenario at a concrete input. -/
theorem c3_complex_rule_join_witness :
    qb0.build_where sig0 wTree1 [] 0 =
      (.ok "(t.a = :a_0) or (t.b = :b_1)", [("a_0", "1"), ("b_1", "2")], 2) := by
  have h := (c3_complex_rule_join qb0 sig0 "or"
    [.simple "a" "equal" "1", .simple "b" "equal" "2"] [] 0).1 (by decide)
  exact h.trans (by decide)

/-- C4 counterexample: a complex rule whose first child compiles and whose
second child names an unknown field raises UnknownFieldError, but the
non-empty params dict passed by the caller is left holding the first
child's parameter entry — it is not "exactly what it was before the
call". -/
theorem c4_counterexample_partial_mutation :
    (qb0.build_where sig0
        (some (.complexDict "and"
          [.simple "a" "equal" "1", .simple "zz" "equal" "2"]))
        [("k", "w")] 0).1 = .error (.unknownField "zz") ∧
      callerParamsAfter [("k", "w")]
        (qb0.build_where sig0
          (some (.complexDict "and"
            [.simple "a" "equal" "1", .simple "zz" "equal" "2"]))
          [("k", "w")] 0) ≠ [("k", "w")] := by
  decide

/-- C4 (amended): an unknown operator or unknown field always raises the
corresponding error; the caller's params map is unchanged when the failing
rule is a top-level simple rule (the lookups precede any compilation) and
when the passed map was empty (the engine rebinds a falsy argument to a
fresh dict); but when the failing leaf is a child of a complex rule whose
earlier sibling already compiled and the passed map was non-empty, the map
retains the earlier sibling's parameter entries at the time of the
raise. -/
theorem c4_unknown_errors_and_mutation {V : Type} (qb : IQueryBuilder V)
    (σ : Nat → String) :
    (∀ (fld op : String) (v : V) (p : Params V) (c : Nat),
      dictLookup qb.operators (strLower op) = none →
        qb.build_where σ (some (.simpleDict fld op v)) p c =
            (.error (.unsupportedOperator op), p, c) ∧
          callerParamsAfter p
            (qb.build_where σ (some (.simpleDict fld op v)) p c) = p) ∧
    (∀ (fld op : String) (v : V) (opk : OperatorKind) (p : Params V)
       (c : Nat),
      dictLookup qb.operators (strLower op) = some opk →
      dictLookup qb.fields (strLower fld) = none →
        qb.build_where σ (some (.simpleDict fld op v)) p c =
            (.error (.unknownField fld), p, c) ∧
          callerParamsAfter p
            (qb.build_where σ (some (.simpleDict fld op v)) p c) = p) ∧
    (∀ (w : Option (WhereInput V)) (c : Nat),
      callerParamsAfter [] (qb.build_where σ w [] c) = []) ∧
    (∀ (cond : String) (r₁ r₂ : Rule V) (p : Params V) (c : Nat) (s : String)
       (p' : Params V) (c' : Nat) (e : QBError) (p'' : Params V) (c'' : Nat),
      strLower cond ∈ Conditions →
      compileRule qb σ r₁ p c = (.ok s, p', c') →
      compileRule qb σ r₂ p' c' = (.error e, p'', c'') →
        qb.build_where σ (some (.complexDict cond [r₁, r₂])) p c =
          (.error e, p'', c'')) := by
  refine ⟨fun fld op v p c hop => ?_, fun fld op v opk p c hop hf => ?_,
    fun w c => rfl, fun cond r₁ r₂ p c s p' c' e p'' c'' hc h1 h2 => ?_⟩
  · have he : compileSimple qb σ fld op v p c =
        (.error (.unsupportedOperator op), p, c) := by
      unfold compileSimple
      rw [hop]
    exact ⟨he, callerParamsAfter_same p _ (by rw [show
      qb.build_where σ (some (.simpleDict fld op v)) p c =
        compileSimple qb σ fld op v p c from rfl, he])⟩
  · have he : compileSimple qb σ fld op v p c =
        (.error (.unknownField fld), p, c) := by
      unfold compileSimple
      rw [hop, hf]
    exact ⟨he, callerParamsAfter_same p _ (by rw [show
      qb.build_where σ (some (.simpleDict fld op v)) p c =
        compileSimple qb σ fld op v p c from rfl, he])⟩
  · show compileRule qb σ (.complex (some cond) [r₁, r₂]) p c = _
    rw [compileRule]
    simp only [Option.getD_some]
    rw [if_pos hc]
    simp only [compileRulesLoop]
    rw [h1]
    dsimp only
    rw [h2]

/-- C4 amended witness: concrete instances of each conjunct. -/
theorem c4_unknown_errors_and_mutation_witness :
    (qb0.build_where sig0 (some (.simpleDict "a" "like" "x")) [("k", "w")] 0 =
        (.error (.unsupportedOperator "like"), [("k", "w")], 0) ∧
      callerParamsAfter [("k", "w")]
        (qb0.build_where sig0 (some (.simpleDict "a" "like" "x"))
          [("k", "w")] 0) = [("k", "w")]) ∧
    (qb0.build_where sig0 (some (.simpleDict "zz" "equal" "x"))
        [("k", "w")] 0 = (.error (.unknownField "zz"), [("k", "w")], 0) ∧
      callerParamsAfter [("k", "w")]
        (qb0.build_where sig0 (some (.simpleDict "zz" "equal" "x"))
          [("k", "w")] 0) = [("k", "w")]) ∧
    callerParamsAfter [] (qb0.build_where sig0 wTree1 [] 0) = [] ∧
    qb0.build_where sig0
        (some (.complexDict "and"
          [.simple "a" "equal" "1", .simple "zz" "equal" "2"]))
        [("k", "w")] 0 =
      (.error (.unknownField "zz"), [("k", "w"), ("a_0", "1")], 1) := by
  have h := c4_unknown_errors_and_mutation qb0 sig0
  exact ⟨h.1 "a" "like" "x" [("k", "w")] 0 (by decide),
    h.2.1 "zz" "equal" "x" .equal [("k", "w")] 0 (by decide) (by rfl),
    h.2.2.1 wTree1 0,
    h.2.2.2 "and" (.simple "a" "equal" "1") (.simple "zz" "equal" "2")
      [("k", "w")] 0 "t.a = :a_0" [("k", "w"), ("a_0", "1")] 1
      (.unknownField "zz") [("k", "w"), ("a_0", "1")] 1
      (by decide) (by decide) (by decide)⟩

lemma buildOrderByLoop_valid {V : Type} (qb : IQueryBuilder V) :
    ∀ (l : List OrderInput) (acc : List String),
      (∀ o ∈ l, validOrd qb o) →
      buildOrderByLoop qb acc l = .ok (acc ++ l.map (orderFragment qb)) := by
  intro l
  induction l with
  | nil =>
    intro acc _
    simp [buildOrderByLoop]
  | cons o rest ih =>
    intro acc hv
    obtain ⟨hd, hs⟩ := hv o (List.mem_cons_self o rest)
    simp only [buildOrderByLoop]
    rw [if_pos hd]
    cases hlk : dictLookup qb.fields (strLower o.field) with
    | none => rw [hlk] at hs; simp at hs
    | some f =>
      dsimp only
      rw [ih _ (fun o' ho' => hv o' (List.mem_cons_of_mem _ ho'))]
      simp [orderFragment, hlk]

lemma buildOrderByLoop_front {V : Type} (qb : IQueryBuilder V) :
    ∀ (pre rest : List OrderInput) (acc : List String),
      (∀ o ∈ pre, validOrd qb o) →
      buildOrderByLoop qb acc (pre ++ rest) =
        buildOrderByLoop qb (acc ++ pre.map (orderFragment qb)) rest := by
  intro pre
  induction pre with
  | nil =>
    intro rest acc _
    simp
  | cons o p ih =>
    intro rest acc hv
    obtain ⟨hd, hs⟩ := hv o (List.mem_cons_self o p)
    simp only [List.cons_append, buildOrderByLoop]
    rw [if_pos hd]
    cases hlk : dictLookup qb.fields (strLower o.field) with
    | none => rw [hlk] at hs; simp at hs
    | some f =>
      dsimp only
      rw [List.append_eq, ih _ _ (fun o' ho' => hv o' (List.mem_cons_of_mem _ ho'))]
      simp [orderFragment, hlk]

/-- C7: for every order-by list with supported (case-insensitively checked,
"asc"-defaulted) directions and registered fields, build_order_by returns
the per-rule strings "<definition> <lowercased direction>" joined by ", ",
and the empty string on the empty list; a rule with any other direction
raises UnsupportedDirectionError and a rule with an unregistered field
raises UnknownFieldError (at the first offending rule, direction checked
first). -/
theorem c7_order_by_compilation {V : Type} (qb : IQueryBuilder V)
    (l : List OrderInput) :
    IQueryBuilder.build_order_by qb [] = .ok "" ∧
    ((∀ o ∈ l, validOrd qb o) →
      qb.build_order_by l =
        .ok (String.intercalate ", " (l.map (orderFragment qb)))) ∧
    (∀ pre o post, l = pre ++ o :: post → (∀ o' ∈ pre, validOrd qb o') →
      strLower (o.direction.getD "asc") ∉ Directions →
      qb.build_order_by l =
        .error (.unsupportedDirection (o.direction.getD "asc"))) ∧
    (∀ pre o post, l = pre ++ o :: post → (∀ o' ∈ pre, validOrd qb o') →
      strLower (o.direction.getD "asc") ∈ Directions →
      dictLookup qb.fields (strLower o.field) = none →
      qb.build_order_by l = .error (.unknownField o.field)) := by
  refine ⟨rfl, fun hv => ?_, fun pre o post hl hpre hd => ?_,
    fun pre o post hl hpre hd hf => ?_⟩
  · unfold IQueryBuilder.build_order_by
    rw [buildOrderByLoop_valid qb l [] hv]
    simp [Except.map]
  · subst hl
    unfold IQueryBuilder.build_order_by
    rw [buildOrderByLoop_front qb pre (o :: post) [] hpre]
    simp only [buildOrderByLoop]
    rw [if_neg hd]
    rfl
  · subst hl
    unfold IQueryBuilder.build_order_by
    rw [buildOrderByLoop_front qb pre (o :: post) [] hpre]
    simp only [buildOrderByLoop]
    rw [if_pos hd, hf]
    rfl

/-- C7 witness: the spec's example (explicit desc, defaulted asc) at the
concrete registries. -/
theorem c7_order_by_compilation_witness :
    qb0.build_order_by [⟨"a", some "DESC"⟩, ⟨"b", none⟩] =
      .ok "t.a desc, t.b asc" := by
  have h := (c7_order_by_compilation qb0
    [⟨"a", some "DESC"⟩, ⟨"b", none⟩]).2.1 (by decide)
  exact h.trans (by decide)

lemma param_eq {V : Type} (σ : Nat → String) (f : Field V) (p : Params V)
    (v : V) (c : Nat) :
    Operator.param σ f p v c =
      ((if f.cast.getD "" = "" then ":" ++ (f.name ++ "_" ++ σ c)
        else "cast(:" ++ (f.name ++ "_" ++ σ c) ++ " as " ++
          f.cast.getD "" ++ ")"),
       dictInsert p (f.name ++ "_" ++ σ c)
         (match f.transform with | some t => t v | none => v),
       c + 1) := by
  unfold Operator.param
  cases hc : f.cast with
  | none => simp [hc]
  | some s =>
    by_cases hs : s = ""
    · simp [hc, hs]
    · simp [hc, hs]

lemma compileSimple_congr {V : Type} (qb : IQueryBuilder V) (σ : Nat → String)
    (fld op : String) (v₁ v₂ : V) (p₁ p₂ : Params V) (c : Nat)
    (hk : p₁.map Prod.fst = p₂.map Prod.fst) :
    (compileSimple qb σ fld op v₁ p₁ c).1 =
        (compileSimple qb σ fld op v₂ p₂ c).1 ∧
      (compileSimple qb σ fld op v₁ p₁ c).2.1.map Prod.fst =
        (compileSimple qb σ fld op v₂ p₂ c).2.1.map Prod.fst ∧
      (compileSimple qb σ fld op v₁ p₁ c).2.2 =
        (compileSimple qb σ fld op v₂ p₂ c).2.2 := by
  unfold compileSimple
  cases dictLookup qb.operators (strLower op) with
  | none => exact ⟨rfl, hk, rfl⟩
  | some opk =>
    cases dictLookup qb.fields (strLower fld) with
    | none => exact ⟨rfl, hk, rfl⟩
    | some f =>
      cases opk
      dsimp only
      unfold Equal.compile
      rw [param_eq, param_eq]
      refine ⟨rfl, ?_, rfl⟩
      dsimp only
      rw [keys_dictInsert, keys_dictInsert, hk]

lemma compileRulesLoop_congr {V : Type} (qb : IQueryBuilder V)
    (σ : Nat → String) :
    ∀ (rs₁ rs₂ : List (Rule V)),
      (∀ r₁, r₁ ∈ rs₁ → ∀ (r₂ : Rule V) (p₁ p₂ : Params V) (c : Nat),
          sameShapeR r₁ r₂ = true →
          p₁.map Prod.fst = p₂.map Prod.fst →
          (compileRule qb σ r₁ p₁ c).1 = (compileRule qb σ r₂ p₂ c).1 ∧
            (compileRule qb σ r₁ p₁ c).2.1.map Prod.fst =
              (compileRule qb σ r₂ p₂ c).2.1.map Prod.fst ∧
            (compileRule qb σ r₁ p₁ c).2.2 =
              (compileRule qb σ r₂ p₂ c).2.2) →
      sameShapeL rs₁ rs₂ = true →
      ∀ (acc : List String) (p₁ p₂ : Params V) (c : Nat),
        p₁.map Prod.fst = p₂.map Prod.fst →
        (compileRulesLoop qb σ acc rs₁ p₁ c).1 =
            (compileRulesLoop qb σ acc rs₂ p₂ c).1 ∧
          (compileRulesLoop qb σ acc rs₁ p₁ c).2.1.map Prod.fst =
            (compileRulesLoop qb σ acc rs₂ p₂ c).2.1.map Prod.fst ∧
          (compileRulesLoop qb σ acc rs₁ p₁ c).2.2 =
            (compileRulesLoop qb σ acc rs₂ p₂ c).2.2 := by
  intro rs₁
  induction rs₁ with
  | nil =>
    intro rs₂ _ hs acc p₁ p₂ c hk
    cases rs₂ with
    | nil => exact ⟨rfl, hk, rfl⟩
    | cons _ _ => simp [sameShapeL] at hs
  | cons r rest ih =>
    intro rs₂ hIH hs acc p₁ p₂ c hk
    cases rs₂ with
    | nil => simp [sameShapeL] at hs
    | cons r' rest' =>
      have hs' : sameShapeR r r' = true ∧ sameShapeL rest rest' = true := by
        simpa [sameShapeL, Bool.and_eq_true] using hs
      have hr := hIH r (List.mem_cons_self r rest) r' p₁ p₂ c hs'.1 hk
      simp only [compileRulesLoop]
      rcases h₁ : compileRule qb σ r p₁ c with ⟨res₁, q₁, d₁⟩
      rcases h₂ : compileRule qb σ r' p₂ c with ⟨res₂, q₂, d₂⟩
      rw [h₁, h₂] at hr
      obtain ⟨hres, hq, hd⟩ := hr
      dsimp only at hres hq hd
      subst hres
      subst hd
      cases res₁ with
      | error e => exact ⟨rfl, hq, rfl⟩
      | ok s =>
        dsimp only
        exact ih rest'
          (fun r₁ hm => hIH r₁ (List.mem_cons_of_mem _ hm))
          hs'.2 (acc ++ ["(" ++ s ++ ")"]) q₁ q₂ d₁ hq

lemma compileRule_congr {V : Type} (qb : IQueryBuilder V) (σ : Nat → String) :
    ∀ (r₁ r₂ : Rule V), sameShapeR r₁ r₂ = true →
      ∀ (p₁ p₂ : Params V) (c : Nat),
        p₁.map Prod.fst = p₂.map Prod.fst →
        (compileRule qb σ r₁ p₁ c).1 = (compileRule qb σ r₂ p₂ c).1 ∧
          (compileRule qb σ r₁ p₁ c).2.1.map Prod.fst =
            (compileRule qb σ r₂ p₂ c).2.1.map Prod.fst ∧
          (compileRule qb σ r₁ p₁ c).2.2 = (compileRule qb σ r₂ p₂ c).2.2
  | .simple f o v, .simple f' o' v', h, p₁, p₂, c, hk => by
    have hfo : f = f' ∧ o = o' := by
      simpa [sameShapeR, Bool.and_eq_true, beq_iff_eq] using h
    obtain ⟨rfl, rfl⟩ := hfo
    exact compileSimple_congr qb σ f o v v' p₁ p₂ c hk
  | .complex cnd rs, .complex cnd' rs', h, p₁, p₂, c, hk => by
    have hc : cnd = cnd' ∧ sameShapeL rs rs' = true := by
      simpa [sameShapeR, Bool.and_eq_true, beq_iff_eq] using h
    obtain ⟨rfl, hsl⟩ := hc
    have hloop := compileRulesLoop_congr qb σ rs rs'
      (fun rr hm rr' q₁ q₂ d hsr hkk =>
        compileRule_congr qb σ rr rr' hsr q₁ q₂ d hkk)
      hsl [] p₁ p₂ c hk
    rw [compileRule, compileRule]
    by_cases hcond : strLower (cnd.getD "and") ∈ Conditions
    · rw [if_pos hcond, if_pos hcond]
      rcases hl₁ : compileRulesLoop qb σ [] rs p₁ c with ⟨res₁, q₁, d₁⟩
      rcases hl₂ : compileRulesLoop qb σ [] rs' p₂ c with ⟨res₂, q₂, d₂⟩
      rw [hl₁, hl₂] at hloop
      obtain ⟨hres, hq, hd⟩ := hloop
      dsimp only at hres hq hd
      subst hres
      subst hd
      cases res₁ with
      | error e => exact ⟨rfl, hq, rfl⟩
      | ok frags => exact ⟨rfl, hq, rfl⟩
    · rw [if_neg hcond, if_neg hcond]
      exact ⟨rfl, hk, rfl⟩
  | .simple _ _ _, .complex _ _, h, _, _, _, _ => by simp [sameShapeR] at h
  | .complex _ _, .simple _ _ _, h, _, _, _, _ => by simp [sameShapeR] at h
termination_by r₁ _ _ _ _ _ _ => sizeOf r₁
decreasing_by
  have hlt := List.sizeOf_lt_of_mem hm
  simp only [Rule.complex.sizeOf_spec]
  omega

/-- C1: client-supplied leaf values reach the output only through the
params map — with the placeholder-name supply σ and the starting counter
pinned, compiling two filter trees that are identical except for the values
at their leaves, from params maps with identical key lists, produces the
very same SQL clause (or the very same error), params maps with identical
key lists (only the bound values can differ), and the same final
counter. -/
theorem c1_values_only_via_params {V : Type} (qb : IQueryBuilder V)
    (σ : Nat → String) (w₁ w₂ : Option (WhereInput V)) (p₁ p₂ : Params V)
    (c : Nat) (hshape : sameShapeW w₁ w₂ = true)
    (hk : p₁.map Prod.fst = p₂.map Prod.fst) :
    (qb.build_where σ w₁ p₁ c).1 = (qb.build_where σ w₂ p₂ c).1 ∧
      (qb.build_where σ w₁ p₁ c).2.1.map Prod.fst =
        (qb.build_where σ w₂ p₂ c).2.1.map Prod.fst ∧
      (qb.build_where σ w₁ p₁ c).2.2 = (qb.build_where σ w₂ p₂ c).2.2 := by
  cases w₁ with
  | none =>
    cases w₂ with
    | none => exact ⟨rfl, hk, rfl⟩
    | some d₂ => cases d₂ <;> simp [sameShapeW] at hshape
  | some d₁ =>
    cases w₂ with
    | none => cases d₁ <;> simp [sameShapeW] at hshape
    | some d₂ =>
      cases d₁ with
      | emptyDict =>
        cases d₂ with
        | emptyDict => exact ⟨rfl, hk, rfl⟩
        | simpleDict f o v => simp [sameShapeW] at hshape
        | complexDict cnd rs => simp [sameShapeW] at hshape
        | otherDict => simp [sameShapeW] at hshape
      | simpleDict f o v =>
        cases d₂ with
        | emptyDict => simp [sameShapeW] at hshape
        | simpleDict f' o' v' =>
          have hfo : f = f' ∧ o = o' := by
            simpa [sameShapeW, Bool.and_eq_true, beq_iff_eq] using hshape
          obtain ⟨rfl, rfl⟩ := hfo
          exact compileSimple_congr qb σ f o v v' p₁ p₂ c hk
        | complexDict cnd rs => simp [sameShapeW] at hshape
        | otherDict => simp [sameShapeW] at hshape
      | complexDict cnd rs =>
        cases d₂ with
        | emptyDict => simp [sameShapeW] at hshape
        | simpleDict f' o' v' => simp [sameShapeW] at hshape
        | complexDict cnd' rs' =>
          have hc : cnd = cnd' ∧ sameShapeL rs rs' = true := by
            simpa [sameShapeW, Bool.and_eq_true, beq_iff_eq] using hshape
          obtain ⟨rfl, hsl⟩ := hc
          exact compileRule_congr qb σ (.complex (some cnd) rs)
            (.complex (some cnd) rs')
            (by simp [sameShapeR, hsl]) p₁ p₂ c hk
        | otherDict => simp [sameShapeW] at hshape
      | otherDict =>
        cases d₂ with
        | emptyDict => simp [sameShapeW] at hshape
        | simpleDict f o v => simp [sameShapeW] at hshape
        | complexDict cnd rs => simp [sameShapeW] at hshape
        | otherDict => exact ⟨rfl, hk, rfl⟩

/-- C1 witness: two concrete trees differing only in leaf values. -/
theorem c1_values_only_via_params_witness :
    (qb0.build_where sig0 wTree1 [] 0).1 =
        (qb0.build_where sig0 wTree2 [] 0).1 ∧
      (qb0.build_where sig0 wTree1 [] 0).2.1.map Prod.fst =
        (qb0.build_where sig0 wTree2 [] 0).2.1.map Prod.fst ∧
      (qb0.build_where sig0 wTree1 [] 0).2.2 =
        (qb0.build_where sig0 wTree2 [] 0).2.2 :=
  c1_values_only_via_params qb0 sig0 wTree1 wTree2 [] [] 0 (by decide) rfl

end QB
